import Mathlib

/- Verification of the document-processing module: a shallow embedding of
   the DocumentProcessor class (frequency analysis, corpus compilation,
   hyponym extraction and the retrieval pipeline) together with theorems
   about its observable behavior.  Strings are modelled as lists of
   characters.  External libraries (the tokenizer regex engine, the JSON
   parser, the lexical database, the text splitter and the vector store)
   are modelled by explicit parameters or, where noted, from the
   specification text. -/

/-- Strings of the embedded program, modelled as lists of characters. -/
abbrev Str := List Char

/-! ## Frequency analyzer (DocumentProcessor.__word_frequency) -/

/-- A word character in the sense of the regex class \w, restricted to
ASCII: letters, digits and the underscore. -/
def isWordChar (c : Char) : Bool :=
  c.isAlphanum || c == '_'

/-- Maximal runs of word characters in a character list; the accumulator
holds the current run reversed. -/
def wordRunsAux (cur : Str) : Str → List Str
  | [] => if cur.isEmpty then [] else [cur.reverse]
  | c :: rest =>
    if isWordChar c then wordRunsAux (c :: cur) rest
    else if cur.isEmpty then wordRunsAux [] rest
    else cur.reverse :: wordRunsAux [] rest

/-- All maximal runs of word characters of a character list. -/
def wordRuns (s : Str) : List Str := wordRunsAux [] s

/-- Tokens of RegexpTokenizer with pattern \b\w{3,}\b applied to the
lowercased text: the maximal word-character runs of length at least 3.
Shorter runs are dropped entirely, never truncated. -/
def pyTokens (text : Str) : List Str :=
  (wordRuns (text.map Char.toLower)).filter (fun r => decide (3 ≤ r.length))

/-- Keys of a Python Counter built from a list, in first-insertion order:
the list with later duplicates removed. -/
def firstDedupAux {α : Type} [DecidableEq α] (seen : List α) : List α → List α
  | [] => []
  | a :: l =>
    if a ∈ seen then firstDedupAux seen l
    else a :: firstDedupAux (a :: seen) l

/-- First-occurrence deduplication of a list. -/
def firstDedup {α : Type} [DecidableEq α] (l : List α) : List α :=
  firstDedupAux [] l

/-- The frequency analyzer DocumentProcessor.__word_frequency: tokenize the
lowercased text with \b\w{3,}\b, count occurrences with a Counter, delete
every stopword key, and keep exactly the words whose count equals
top_freq.  The stopword list is a parameter modelling the external corpus
data stopwords.words applied to english. -/
def wordFrequency (stopwordsList : List Str) (text : Str) (top_freq : Nat) :
    List Str :=
  let tokens := pyTokens text
  (firstDedup tokens).filter
    (fun w => decide (w ∉ stopwordsList) && (tokens.count w == top_freq))

/-! ## String helpers (os.path and str operations used by the class) -/

/-- Substring containment, the Python expression needle in hay for
strings: some suffix of hay starts with needle. -/
def strContainsL (hay needle : Str) : Bool :=
  match hay with
  | [] => needle.isEmpty
  | _ :: rest => needle.isPrefixOf hay || strContainsL rest needle

/-- os.path.basename for slash-separated paths: the part after the last
slash. -/
def basenameL (p : Str) : Str :=
  (p.reverse.takeWhile (fun c => !(c == '/'))).reverse

/-- Python str.replace: replace every non-overlapping occurrence of
needle by repl, scanning left to right.  For the empty needle the string
is returned unchanged (the class only uses a non-empty needle). -/
def replaceAllAux (needle repl : Str) : Nat → Str → Str
  | _, [] => []
  | 0, hay => hay
  | fuel + 1, c :: rest =>
    if 0 < needle.length ∧ needle.isPrefixOf (c :: rest) = true then
      repl ++ replaceAllAux needle repl fuel ((c :: rest).drop needle.length)
    else
      c :: replaceAllAux needle repl fuel rest

/-- Python str.replace, entry point: every step consumes at least one
character of hay, so a fuel of the length of hay is always sufficient. -/
def replaceAll (needle repl : Str) (hay : Str) : Str :=
  replaceAllAux needle repl hay.length hay

/-- os.path.join of a directory and a file name (the directory does not
end in a separator in the modelled configuration). -/
def pathJoin (dir name : Str) : Str := dir ++ '/' :: name

/-! ## Error and state model -/

/-- The opaque payload of a json.JSONDecodeError, as logged by the class. -/
structure JsonErr where
  msg : Str
deriving DecidableEq

/-- The Python exceptions the class can raise.  A ValueError raised inside
an except clause implicitly chains the caught exception, so the modelled
ValueError carries the JSON decode error as context. -/
inductive PyErr where
  | fileNotFound (path : Str)
  | valueError (msg : Str) (ctx : JsonErr)
  | keyError (key : Str)
deriving DecidableEq

/-- A message emitted through the logging module. -/
inductive LogMsg where
  | errorLog (e : JsonErr)
  | warnLog (msg : Str)
deriving DecidableEq

/-- A JSON article record: a finite map from field names to string
values, as produced by json.load for one array element. -/
def Article := List (Str × Str)

/-- Python subscript art of a key: the value when present. -/
def pyGetItem (a : Article) (key : Str) : Option Str :=
  match a with
  | [] => none
  | (k, v) :: rest => if k = key then some v else pyGetItem rest key

/-- The outcome of json.load on the file behind self.file_path: either a
decode error or the parsed list of article records.  The JSON parser is
external; the class only observes this outcome. -/
def JsonContent := Except JsonErr (List Article)

/-- An abstract filesystem: which paths exist (os.path.exists). -/
structure FileSystem where
  pathExists : Str → Bool

/-- The fields of a DocumentProcessor instance. -/
structure DocumentProcessor where
  file_path : Str
  docs : List Str
deriving DecidableEq

/-! ## Constructor (DocumentProcessor.__init__) -/

/-- The needle of the routing check in the constructor. -/
def postProcessNeedle : Str := "post_process_data".data

/-- DocumentProcessor.__init__: raise FileNotFoundError when the path
does not exist; otherwise store the path and an empty docs list, and when
the path does not contain the substring post_process_data, run the
external extraction step and point file_path at the compiled JSON file
instead.  The returned Bool records whether the external extraction
(NewsPaperExtractorXml.from_xml) was invoked; compiledDocsPath models the
environment variable COMPILED_DOCS_PATH. -/
def initProcessor (fs : FileSystem) (compiledDocsPath : Str)
    (file_path : Str) : Except PyErr (DocumentProcessor × Bool) :=
  if fs.pathExists file_path = false then
    .error (.fileNotFound file_path)
  else if strContainsL file_path postProcessNeedle = true then
    .ok ({ file_path := file_path, docs := [] }, false)
  else
    let file_name := replaceAll ".xml".data ".json".data (basenameL file_path)
    .ok ({ file_path := pathJoin compiledDocsPath file_name, docs := [] }, true)

/-! ## Corpus compilation (DocumentProcessor.__compile_docs) -/

/-- Python whitespace characters matched by \s (ASCII range). -/
def isPySpace (c : Char) : Bool :=
  c == ' ' || c == '\t' || c == '\n' || c == '\r' || c == '\x0b' || c == '\x0c'

/-- Largest index of a newline character in a list, if any. -/
def lastNewlineAux (l : Str) (i : Nat) (best : Option Nat) : Option Nat :=
  match l with
  | [] => best
  | c :: rest => lastNewlineAux rest (i + 1) (if c == '\n' then some i else best)

/-- Largest index holding a newline character. -/
def lastNewline (l : Str) : Option Nat := lastNewlineAux l 0 none

/-- One scanning step of re.sub with pattern (?<=\.)\s+$ under
re.MULTILINE: at each position whose previous character is a period and
whose current character is whitespace, the greedy match is the longest
whitespace run ending either at the end of the string or just before a
newline character; the match is deleted and scanning resumes at the match
end.  prev is the character before the current position in the original
string. -/
def pySubAux : Nat → Option Char → Str → Str
  | _, _, [] => []
  | 0, _, s => s
  | fuel + 1, prev, c :: rest =>
    if prev = some '.' ∧ isPySpace c = true then
      let run := (c :: rest).takeWhile isPySpace
      if run.length = (c :: rest).length then
        []
      else
        match lastNewline (run.drop 1) with
        | some t =>
          pySubAux fuel ((c :: rest).get? t) ((c :: rest).drop (t + 1))
        | none => c :: pySubAux fuel (some c) rest
    else
      c :: pySubAux fuel (some c) rest

/-- re.sub of the pattern (?<=\.)\s+$ with empty replacement and
re.MULTILINE over the whole string: removes trailing whitespace occurring
after sentence-ending periods at line ends.  Every scanning step consumes
at least one character, so a fuel of the string length is always
sufficient and the fuel-exhausted branch is unreachable. -/
def pySub (s : Str) : Str := pySubAux s.length none s

/-- The per-article character budget _openai_token_limit. -/
def openaiTokenLimit : Nat := 150000

/-- Truncation of an article body to the first _openai_token_limit
characters. -/
def pyTruncate (s : Str) : Str := s.take openaiTokenLimit

/-- The ValueError message built for an invalid JSON file. -/
def invalidJsonMsg (fp : Str) : Str :=
  "Error: ".data ++ fp ++ " is not a valid json file.".data

/-- The list comprehension over the parsed articles: each article's
fulltext truncated to the character budget, failing with a KeyError on
the first article that lacks the fulltext field (the comprehension is
evaluated in full before self.docs is assigned). -/
def compileFulltexts : List Article → Except PyErr (List Str)
  | [] => .ok []
  | a :: rest =>
    match pyGetItem a "fulltext".data with
    | none => .error (.keyError "fulltext".data)
    | some ft =>
      match compileFulltexts rest with
      | .error e => .error e
      | .ok fts => .ok (pyTruncate ft :: fts)

/-- DocumentProcessor.__compile_docs: parse the file as JSON; on a decode
error, log it and raise a ValueError; otherwise build the truncated
fulltext list, assign it to self.docs, join with a period separator and
strip trailing whitespace after periods at line ends.  The triple returned
is (log messages emitted, the docs field after the call, the outcome). -/
def compileDocs (fp : Str) (docs0 : List Str) (content : JsonContent) :
    List LogMsg × List Str × Except PyErr Str :=
  match content with
  | .error e => ([.errorLog e], docs0, .error (.valueError (invalidJsonMsg fp) e))
  | .ok articles =>
    match compileFulltexts articles with
    | .error e => ([], docs0, .error e)
    | .ok fts => ([], fts, .ok (pySub (List.intercalate ".".data fts)))

/-! ## Text splitter and retrieval pipeline (DocumentProcessor.retrieve_docs) -/

/-- Modelled from the spec: the external CharacterTextSplitter configured
with chunk_size C, chunk_overlap O and add_start_index.  A chunk is a
bounded-length substring of the corpus with a recorded start offset;
consecutive chunks overlap by O characters, each chunk window starting
where C characters remain beyond the previous window minus the overlap.
Defined for C greater than O; degenerate parameters yield a single chunk. -/
def splitGoAux (C O : Nat) (s : Str) : Nat → Nat → List (Nat × Str)
  | 0, start => [(start, (s.drop start).take C)]
  | fuel + 1, start =>
    if s.length ≤ start + C ∨ C ≤ O then
      [(start, (s.drop start).take C)]
    else
      (start, (s.drop start).take C) :: splitGoAux C O s fuel (start + (C - O))

/-- Modelled from the spec: all chunks of the corpus with their start
offsets, beginning at offset 0.  Each window advances the start by at
least one character, so a fuel of the corpus length is always sufficient:
when the fuel runs out the start offset is past the end and the produced
final chunk coincides with the one the guard would produce. -/
def splitChunks (C O : Nat) (s : Str) : List (Nat × Str) :=
  splitGoAux C O s s.length 0

/-- The chunk texts handed to Document page_content, in order, for the
configuration chunk_size 1000 and chunk_overlap 200 used by
retrieve_docs. -/
def splitText (s : Str) : List Str :=
  (splitChunks 1000 200 s).map Prod.snd

/-- DocumentProcessor.retrieve_docs: compile the corpus, split it into
chunks, build the vector store over only the first two chunks
(docs[:2]) and query it.  The vector store and retriever are external;
search models __v_store composed with get_relevant_documents, taking the
indexed documents and the query and returning the most similar indexed
documents. -/
def retrieveDocs (search : List Str → Str → List Str) (fp : Str)
    (docs0 : List Str) (content : JsonContent) (query : Str) :
    List LogMsg × List Str × Except PyErr (List Str) :=
  match compileDocs fp docs0 content with
  | (logs, docs1, .error e) => (logs, docs1, .error e)
  | (logs, docs1, .ok txt) =>
    (logs, docs1, .ok (search ((splitText txt).take 2) query))

/-! ## Hyponym extraction (DocumentProcessor.extract_hyponyms) -/

/-- A lemma of a sense-set in the lexical database, carrying its name. -/
structure WnLemma where
  name : Str
deriving DecidableEq

/-- A hyponym of a sense-set: a more specific sense-set, observed through
its lemmas. -/
structure WnHyponym where
  lemmas : List WnLemma
deriving DecidableEq

/-- A sense-set (synset) of the lexical database, observed through its
hyponyms. -/
structure WnSynset where
  hyponyms : List WnHyponym
deriving DecidableEq

/-- The external lexical database: the sense-sets of each word, in the
database's internal order. -/
structure WordNet where
  synsets : Str → List WnSynset

/-- DocumentProcessor.extract_hyponyms: for every sense-set of the word,
for every hyponym of the sense-set, append the name of every lemma to the
accumulating list. -/
def extractHyponyms (wn : WordNet) (word : Str) : List Str :=
  let syns := wn.synsets word
  syns.foldl
    (fun acc synset =>
      synset.hyponyms.foldl
        (fun acc2 hyp =>
          hyp.lemmas.foldl (fun acc3 lem => acc3 ++ [lem.name]) acc2)
        acc)
    []

/-- The lemma names of all hyponyms of one sense-set, flattened in
database order. -/
def synsetHyponymNames (s : WnSynset) : List Str :=
  s.hyponyms.flatMap (fun h => h.lemmas.map WnLemma.name)

/-! ## Theorems -/

theorem mem_firstDedupAux {α : Type} [DecidableEq α] (w : α) :
    ∀ (l seen : List α), w ∈ firstDedupAux seen l ↔ w ∈ l ∧ w ∉ seen := by
  intro l
  induction l with
  | nil => intro seen; simp [firstDedupAux]
  | cons a l ih =>
    intro seen
    by_cases ha : a ∈ seen
    · rw [show firstDedupAux seen (a :: l) = firstDedupAux seen l by
        simp [firstDedupAux, ha]]
      rw [ih]
      constructor
      · exact fun h => ⟨List.mem_cons_of_mem a h.1, h.2⟩
      · rintro ⟨hw, hns⟩
        rcases List.mem_cons.mp hw with rfl | hw
        · exact absurd ha hns
        · exact ⟨hw, hns⟩
    · rw [show firstDedupAux seen (a :: l) = a :: firstDedupAux (a :: seen) l by
        simp [firstDedupAux, ha]]
      constructor
      · intro hw
        rcases List.mem_cons.mp hw with rfl | hw
        · exact ⟨List.mem_cons_self w l, ha⟩
        · rcases (ih (a :: seen)).mp hw with ⟨hl, hns⟩
          exact ⟨List.mem_cons_of_mem a hl,
            fun hs => hns (List.mem_cons_of_mem a hs)⟩
      · rintro ⟨hw, hns⟩
        rcases List.mem_cons.mp hw with rfl | hw
        · exact List.mem_cons_self w _
        · by_cases hwa : w = a
          · subst hwa; exact List.mem_cons_self w _
          · refine List.mem_cons_of_mem a ((ih (a :: seen)).mpr ⟨hw, ?_⟩)
            intro hs
            rcases List.mem_cons.mp hs with h | h
            · exact hwa h
            · exact hns h

theorem mem_firstDedup {α : Type} [DecidableEq α] (w : α) (l : List α) :
    w ∈ firstDedup l ↔ w ∈ l := by
  simp [firstDedup, mem_firstDedupAux]

/-- C1: for every stopword set, input text and threshold, the frequency
analyzer returns a word iff it is a token of the lowercased text (maximal
word-character run of length at least 3), is not a stopword, and its
occurrence count among the tokens equals the threshold exactly — never a
word with a higher or lower count. -/
theorem wordFrequency_mem_iff (stopwordsList : List Str) (text : Str)
    (k : Nat) (w : Str) :
    w ∈ wordFrequency stopwordsList text k ↔
      w ∈ pyTokens text ∧ w ∉ stopwordsList ∧ (pyTokens text).count w = k := by
  unfold wordFrequency
  simp only [List.mem_filter, mem_firstDedup, Bool.and_eq_true,
    decide_eq_true_eq, beq_iff_eq]
  try tauto

theorem foldl_append_flatMap {α : Type} (f : α → List Str) (l : List α)
    (acc : List Str) :
    l.foldl (fun a x => a ++ f x) acc = acc ++ l.flatMap f := by
  induction l generalizing acc with
  | nil => simp
  | cons x xs ih => simp [ih, List.append_assoc]

theorem flatMap_singleton_map {α β : Type} (f : α → β) (l : List α) :
    l.flatMap (fun x => [f x]) = l.map f := by
  induction l with
  | nil => rfl
  | cons x xs ih => simp [ih]

/-- C4: hyponym extraction returns the flattening, in the database's
internal sense and hyponym order, of every lemma name of every hyponym of
every sense-set of the word, without deduplication; for a word with no
sense-sets it returns the empty list. -/
theorem extractHyponyms_spec (wn : WordNet) (word : Str) :
    extractHyponyms wn word = (wn.synsets word).flatMap synsetHyponymNames ∧
    (wn.synsets word = [] → extractHyponyms wn word = []) := by
  have h : extractHyponyms wn word = (wn.synsets word).flatMap synsetHyponymNames := by
    unfold extractHyponyms synsetHyponymNames
    simp only [foldl_append_flatMap, flatMap_singleton_map, List.nil_append]
  refine ⟨h, fun he => ?_⟩
  rw [h, he]
  rfl

theorem extractHyponyms_spec_witness :
    (WordNet.mk fun _ => []).synsets "dog".data = [] ∧
    extractHyponyms ⟨fun _ => []⟩ "dog".data = [] :=
  ⟨rfl, (extractHyponyms_spec ⟨fun _ => []⟩ "dog".data).2 rfl⟩

/-- C5: constructing the processor on a path that does not exist fails
with a FileNotFoundError; no processor state is built and the extraction
routing is never reached. -/
theorem initProcessor_missing_file (fs : FileSystem) (cdp p : Str)
    (h : fs.pathExists p = false) :
    initProcessor fs cdp p = .error (.fileNotFound p) := by
  simp [initProcessor, h]

theorem initProcessor_missing_file_witness :
    (FileSystem.mk fun _ => false).pathExists "data/articles.json".data = false ∧
    initProcessor ⟨fun _ => false⟩ "compiled".data "data/articles.json".data
      = .error (.fileNotFound "data/articles.json".data) :=
  ⟨rfl, initProcessor_missing_file _ _ _ rfl⟩

/-- C9: on an existing path, the constructor invokes the external
extraction step exactly when the path does not contain the substring
post_process_data; when the substring occurs the stored file path is the
given path unchanged, and in both cases docs is initialized to the empty
list. -/
theorem initProcessor_routing (fs : FileSystem) (cdp p : Str)
    (h : fs.pathExists p = true) :
    (strContainsL p postProcessNeedle = true →
      initProcessor fs cdp p = .ok ({ file_path := p, docs := [] }, false)) ∧
    (strContainsL p postProcessNeedle = false →
      initProcessor fs cdp p = .ok
        ({ file_path :=
            pathJoin cdp (replaceAll ".xml".data ".json".data (basenameL p)),
           docs := [] }, true)) := by
  constructor <;> intro hc <;> simp [initProcessor, h, hc]

theorem initProcessor_routing_witness :
    (FileSystem.mk fun _ => true).pathExists "post_process_data/f.json".data = true ∧
    strContainsL "post_process_data/f.json".data postProcessNeedle = true ∧
    initProcessor ⟨fun _ => true⟩ "compiled".data "post_process_data/f.json".data
      = .ok ({ file_path := "post_process_data/f.json".data, docs := [] }, false) ∧
    strContainsL "raw/f.xml".data postProcessNeedle = false ∧
    initProcessor ⟨fun _ => true⟩ "compiled".data "raw/f.xml".data
      = .ok ({ file_path := "compiled/f.json".data, docs := [] }, true) :=
  ⟨rfl, rfl,
   (initProcessor_routing ⟨fun _ => true⟩ "compiled".data
      "post_process_data/f.json".data rfl).1 rfl,
   rfl,
   (initProcessor_routing ⟨fun _ => true⟩ "compiled".data
      "raw/f.xml".data rfl).2 rfl⟩

/-- C6: compiling when the file content is not valid JSON logs the decode
error and raises a ValueError that carries the decode error as its
context; the log is emitted as part of producing the raised error. -/
theorem compileDocs_invalid_json (fp : Str) (docs0 : List Str) (e : JsonErr) :
    compileDocs fp docs0 (.error e) =
      ([.errorLog e], docs0, .error (.valueError (invalidJsonMsg fp) e)) := rfl

/-- C8: a failed JSON parse leaves the docs field unchanged: the error is
raised before any mutation of instance state. -/
theorem compileDocs_error_preserves_docs (fp : Str) (docs0 : List Str)
    (e : JsonErr) :
    (compileDocs fp docs0 (.error e)).2.1 = docs0 := rfl

theorem compileFulltexts_missing_key (arts : List Article)
    (h : ∃ a ∈ arts, pyGetItem a "fulltext".data = none) :
    compileFulltexts arts = .error (.keyError "fulltext".data) := by
  induction arts with
  | nil => rcases h with ⟨a, ha, _⟩; exact absurd ha (List.not_mem_nil a)
  | cons a rest ih =>
    cases hg : pyGetItem a "fulltext".data with
    | none => simp [compileFulltexts, hg]
    | some ft =>
      rcases h with ⟨b, hb, hnone⟩
      rcases List.mem_cons.mp hb with rfl | hb
      · rw [hg] at hnone; exact absurd hnone (by simp)
      · simp [compileFulltexts, hg, ih ⟨b, hb, hnone⟩]

/-- C10: if the file parses as a JSON array in which some element lacks
the fulltext field, compiling fails with a KeyError, not with the
ValueError of the invalid-JSON path. -/
theorem compileDocs_missing_fulltext (fp : Str) (docs0 : List Str)
    (arts : List Article)
    (h : ∃ a ∈ arts, pyGetItem a "fulltext".data = none) :
    (compileDocs fp docs0 (.ok arts)).2.2 = .error (.keyError "fulltext".data) := by
  simp [compileDocs, compileFulltexts_missing_key arts h]

theorem compileDocs_missing_fulltext_witness :
    (∃ a ∈ [([] : Article)], pyGetItem a "fulltext".data = none) ∧
    (compileDocs "p.json".data [] (.ok [[]])).2.2
      = .error (.keyError "fulltext".data) :=
  ⟨⟨[], List.mem_singleton.mpr rfl, rfl⟩,
   compileDocs_missing_fulltext "p.json".data [] [[]]
     ⟨[], List.mem_singleton.mpr rfl, rfl⟩⟩

theorem compileFulltexts_all_present (arts : List Article)
    (h : ∀ a ∈ arts, (pyGetItem a "fulltext".data).isSome = true) :
    compileFulltexts arts =
      .ok (arts.map fun a => pyTruncate ((pyGetItem a "fulltext".data).getD [])) := by
  induction arts with
  | nil => rfl
  | cons a rest ih =>
    have ha := h a (List.mem_cons_self a rest)
    cases hg : pyGetItem a "fulltext".data with
    | none => rw [hg] at ha; exact absurd ha (by simp)
    | some ft =>
      simp [compileFulltexts, hg,
        ih (fun b hb => h b (List.mem_cons_of_mem a hb))]

/-- C3: when every article record carries a fulltext field, the compiled
corpus is the fulltext values truncated to the first 150000 characters,
joined by the period separator, with trailing whitespace occurring after
sentence-ending periods removed; docs is set to the truncated list. -/
theorem compileDocs_ok_spec (fp : Str) (docs0 : List Str)
    (arts : List Article)
    (h : ∀ a ∈ arts, (pyGetItem a "fulltext".data).isSome = true) :
    compileDocs fp docs0 (.ok arts) =
      ([],
       arts.map (fun a => pyTruncate ((pyGetItem a "fulltext".data).getD [])),
       .ok (pySub (List.intercalate ".".data
         (arts.map fun a => pyTruncate ((pyGetItem a "fulltext".data).getD []))))) := by
  simp [compileDocs, compileFulltexts_all_present arts h]

theorem compileDocs_ok_spec_witness :
    ([[("fulltext".data, "Alpha. ".data)], [("fulltext".data, "Beta".data)]].all
        (fun a => (pyGetItem a "fulltext".data).isSome)) = true ∧
    compileDocs "p.json".data []
        (.ok [[("fulltext".data, "Alpha. ".data)], [("fulltext".data, "Beta".data)]])
      = ([], ["Alpha. ".data, "Beta".data], .ok "Alpha. .Beta".data) :=
  ⟨by decide,
   compileDocs_ok_spec "p.json".data []
     [[("fulltext".data, "Alpha. ".data)], [("fulltext".data, "Beta".data)]]
     (by decide)⟩

theorem splitGoAux_length_le (C O : Nat) (s : Str) :
    ∀ (fuel start : Nat), ∀ p ∈ splitGoAux C O s fuel start, p.2.length ≤ C := by
  intro fuel
  induction fuel with
  | zero =>
    intro start p hp
    rcases List.mem_singleton.mp hp with rfl
    simp [List.length_take]
  | succ fuel ih =>
    intro start p hp
    rw [splitGoAux] at hp
    split at hp
    · rcases List.mem_singleton.mp hp with rfl
      simp [List.length_take]
    · rcases List.mem_cons.mp hp with rfl | hp
      · simp [List.length_take]
      · exact ih _ p hp

theorem splitGoAux_head (C O : Nat) (s : Str) (fuel start : Nat) :
    ∃ tl, splitGoAux C O s fuel start = (start, (s.drop start).take C) :: tl := by
  cases fuel with
  | zero => exact ⟨[], rfl⟩
  | succ fuel =>
    rw [splitGoAux]
    split
    · exact ⟨[], rfl⟩
    · exact ⟨_, rfl⟩

theorem splitGoAux_chain (C O : Nat) (s : Str) :
    ∀ (fuel start : Nat),
      List.Chain' (fun p q => q.1 + O = p.1 + p.2.length)
        (splitGoAux C O s fuel start) := by
  intro fuel
  induction fuel with
  | zero => intro start; exact List.chain'_singleton _
  | succ fuel ih =>
    intro start
    rw [splitGoAux]
    split
    · exact List.chain'_singleton _
    · rename_i hguard
      rcases splitGoAux_head C O s fuel (start + (C - O)) with ⟨tl, htl⟩
      rw [htl]
      refine List.Chain'.cons ?_ (htl ▸ ih (start + (C - O)))
      simp only [not_or, not_le] at hguard
      simp only [List.length_take, List.length_drop]
      omega

theorem splitGoAux_single (C O : Nat) (s : Str) (h : s.length < C)
    (fuel : Nat) :
    splitGoAux C O s fuel 0 = [(0, s)] := by
  have htake : (s.drop 0).take C = s := by
    rw [List.drop_zero]
    exact List.take_of_length_le (le_of_lt h)
  cases fuel with
  | zero =>
    simp only [splitGoAux]
    rw [htake]
  | succ n =>
    simp only [splitGoAux]
    rw [if_pos (Or.inl (show s.length ≤ 0 + C by omega)), htake]

theorem splitChunks_single (C O : Nat) (s : Str) (h : s.length < C) :
    splitChunks C O s = [(0, s)] :=
  splitGoAux_single C O s h s.length

/-- C7: for the configuration chunk_size 1000 and chunk_overlap 200 used
by retrieve_docs, every chunk of the modelled splitter has length at most
1000, each subsequent chunk starts 200 characters before the end of the
previous chunk, and a corpus shorter than 1000 characters yields exactly
one chunk. -/
theorem splitChunks_spec (s : Str) :
    (∀ p ∈ splitChunks 1000 200 s, p.2.length ≤ 1000) ∧
    List.Chain' (fun p q => q.1 + 200 = p.1 + p.2.length)
      (splitChunks 1000 200 s) ∧
    (s.length < 1000 → (splitChunks 1000 200 s).length = 1) := by
  refine ⟨fun p hp => splitGoAux_length_le 1000 200 s s.length 0 p hp,
    splitGoAux_chain 1000 200 s s.length 0, fun h => ?_⟩
  rw [splitChunks_single 1000 200 s h]
  rfl

theorem splitChunks_spec_witness :
    (0, "ab".data) ∈ splitChunks 1000 200 "ab".data ∧
    (0, "ab".data).2.length ≤ 1000 ∧
    "ab".data.length < 1000 ∧
    (splitChunks 1000 200 "ab".data).length = 1 :=
  ⟨by decide,
   (splitChunks_spec "ab".data).1 (0, "ab".data) (by decide),
   by decide,
   (splitChunks_spec "ab".data).2.2 (by decide)⟩

/-- C2: for any retriever that returns a subset of the documents it
indexes (the modelled property of the external similarity store), every
document returned by the retrieval pipeline is one of the first two
chunks of the split corpus; content from the third chunk onward is never
returned no matter how many chunks the corpus splits into. -/
theorem retrieveDocs_first_two (search : List Str → Str → List Str)
    (hsearch : ∀ ds q, ∀ d ∈ search ds q, d ∈ ds)
    (fp : Str) (docs0 : List Str) (content : JsonContent) (query : Str)
    (res : List Str)
    (hrun : (retrieveDocs search fp docs0 content query).2.2 = .ok res)
    (txt : Str) (htxt : (compileDocs fp docs0 content).2.2 = .ok txt)
    (d : Str) (hd : d ∈ res) :
    d ∈ (splitText txt).take 2 := by
  unfold retrieveDocs at hrun
  rcases hcomp : compileDocs fp docs0 content with ⟨ls, ds, r⟩
  rw [hcomp] at hrun htxt
  cases r with
  | error e => exact absurd hrun (by simp)
  | ok t =>
    have ht : t = txt := by simpa using htxt
    subst ht
    have hres : search ((splitText t).take 2) query = res := by
      simpa using hrun
    rw [← hres] at hd
    exact hsearch _ _ d hd

theorem retrieveDocs_first_two_witness :
    (retrieveDocs (fun ds _ => ds) "p.json".data []
        (.ok [[("fulltext".data, "Alpha.".data)]]) "query".data).2.2
      = .ok ["Alpha.".data] ∧
    (compileDocs "p.json".data [] (.ok [[("fulltext".data, "Alpha.".data)]])).2.2
      = .ok "Alpha.".data ∧
    "Alpha.".data ∈ (splitText "Alpha.".data).take 2 :=
  ⟨rfl, rfl,
   retrieveDocs_first_two (fun ds _ => ds) (fun _ _ _ hd => hd)
     "p.json".data [] (.ok [[("fulltext".data, "Alpha.".data)]]) "query".data
     ["Alpha.".data] rfl "Alpha.".data rfl
     "Alpha.".data (by decide)⟩
